import Mathlib

/-!
Verification of the Document Indexing and Retrieval Engine of the Docu-query
repository: the chunker, the deterministic fallback embedding, the cosine
similarity scorer, the vector store with document-scoped deletion, the
retriever with per-document aggregation, and the document lifecycle service.

JavaScript strings are modelled as `List Char`, JavaScript numbers as an
arbitrary `LinearOrderedField` (instantiated at `ℝ` where the transcendental
functions `Math.sin` / `Math.sqrt` matter, and at `ℚ` for executable
witnesses).  Maps (`Map<string, _>`) are modelled as insertion-ordered
association lists, matching the iteration-order guarantees of JavaScript
maps.  Network calls (`fetch`) are modelled as oracle function parameters;
`Date` valued fields, `localStorage` persistence and observer callbacks are
omitted, since no claim refers to them.
-/

namespace DocuQuery

/-- Embedding of JavaScript `String.prototype.trim`: drop whitespace from
both ends of the character list. -/
def jsTrim (s : List Char) : List Char :=
  ((s.dropWhile Char.isWhitespace).reverse.dropWhile Char.isWhitespace).reverse

/-- Terminal punctuation recognised by the chunker's sentence splitter,
from the regular expression `/[.!?]+/` in `AIService.splitIntoChunks`. -/
def isTerminalPunct (c : Char) : Bool :=
  c == '.' || c == '!' || c == '?'

/-- Embedding of `text.split(/[.!?]+/)`: split on maximal runs of terminal
punctuation.  A run of delimiters separates two fragments; leading and
trailing delimiter runs produce empty fragments, as in JavaScript.  `acc`
holds the current fragment reversed; `inRun` records whether the previous
character belonged to a delimiter run (so further delimiters extend the
run instead of emitting empty fragments). -/
def splitPunctGo (cs : List Char) (acc : List Char) (inRun : Bool) :
    List (List Char) :=
  match cs with
  | [] => [acc.reverse]
  | c :: rest =>
    if isTerminalPunct c then
      if inRun then splitPunctGo rest acc true
      else acc.reverse :: splitPunctGo rest [] true
    else
      splitPunctGo rest (c :: acc) false

def splitPunct (cs : List Char) : List (List Char) :=
  splitPunctGo cs [] false

/-- Embedding of `currentChunk.split(' ')`: split on every single space
character (no collapsing of repeated separators). -/
def splitSpaceAux (cs : List Char) (acc : List Char) : List (List Char) :=
  match cs with
  | [] => [acc.reverse]
  | c :: rest =>
    if c == ' ' then acc.reverse :: splitSpaceAux rest []
    else splitSpaceAux rest (c :: acc)

def splitSpace (cs : List Char) : List (List Char) :=
  splitSpaceAux cs []

/-- Embedding of `words.join(' ')`. -/
def joinSpace : List (List Char) → List Char
  | [] => []
  | [w] => w
  | w :: ws => w ++ ' ' :: joinSpace ws

/-- Embedding of `words.slice(-overlap / 10)` for a natural-number count
`n = overlap / 10` (floor division): JavaScript coerces the slice argument
with truncation toward zero, so `n = 0` yields `slice(0)` — the whole
array — while `n ≥ 1` keeps the last `min n (length)` elements. -/
def jsSliceFromEnd (n : Nat) (xs : List α) : List α :=
  if n = 0 then xs else xs.drop (xs.length - n)

/-- One iteration of the sentence-accumulation loop in
`AIService.splitIntoChunks`: close the running buffer when appending the
sentence would exceed `chunkSize` and the buffer is non-empty, seeding the
next buffer with the closed buffer's trailing words; then append the
sentence followed by `". "`. -/
def chunkStep (chunkSize overlap : Nat)
    (st : List (List Char) × List Char) (s : List Char) :
    List (List Char) × List Char :=
  let closed :=
    if st.2.length + s.length > chunkSize ∧ st.2 ≠ [] then
      (st.1 ++ [jsTrim st.2],
        joinSpace (jsSliceFromEnd (overlap / 10) (splitSpace st.2)) ++ [' '])
    else
      st
  (closed.1, closed.2 ++ s ++ ['.', ' '])

/-- The sentence list fed to the accumulation loop: fragments of the
punctuation split whose trim is non-empty (`filter(s => s.trim())`). -/
def goodSentences (text : List Char) : List (List Char) :=
  (splitPunct text).filter (fun s => !(jsTrim s).isEmpty)

/-- The chunk list produced by the loop plus the final flush of a
non-empty trimmed buffer. -/
def chunkLoopChunks (chunkSize overlap : Nat) (text : List Char) :
    List (List Char) :=
  let p := (goodSentences text).foldl (chunkStep chunkSize overlap) ([], [])
  if (jsTrim p.2).isEmpty then p.1 else p.1 ++ [jsTrim p.2]

/-- Embedding of `AIService.splitIntoChunks(text, chunkSize, overlap)`.
The source's default `overlap` is 50 and `indexDocument` calls it with
`chunkSize = 500`. -/
def splitIntoChunks (chunkSize overlap : Nat) (text : List Char) :
    List (List Char) :=
  let cl := chunkLoopChunks chunkSize overlap text
  if cl.isEmpty then [text] else cl

/-! ## AI service: embeddings, similarity, vector store, retrieval -/

/-- The transcendental operations of JavaScript `Math` used by the service,
abstracted so the model can be instantiated at `ℝ` (with the genuine
`Real.sqrt` / `Real.sin`) and at `ℚ` for executable witnesses. -/
structure NumOps (R : Type) where
  sqrt : R → R
  sin : R → R

/-- The real-number instantiation: JavaScript numbers idealised as `ℝ` with
the true `Math.sqrt` and `Math.sin`. -/
noncomputable def realOps : NumOps ℝ :=
  ⟨Real.sqrt, Real.sin⟩

/-- A computable `ℚ` instantiation used only to evaluate witnesses. -/
def ratOps : NumOps ℚ :=
  ⟨fun x => x, fun _ => 0⟩

variable {R : Type} [LinearOrderedField R]

/-- Embedding of `EmbeddingResult`. -/
structure EmbeddingResult (R : Type) where
  embedding : List R
  tokenCount : Nat
  deriving DecidableEq

/-- `seed`: the sum of the character codes of the input text
(`text.split('').reduce((acc, char) => acc + char.charCodeAt(0), 0)`). -/
def charSum (text : List Char) : Nat :=
  (text.map Char.toNat).sum

/-- Embedding of `AIService.generateMockEmbedding`: a 1536-component vector
whose component `i` is `sin(seed * (i + 1)) * 0.5 + 0.5`. -/
def generateMockEmbedding (ops : NumOps R) (text : List Char) : List R :=
  let seed := charSum text
  (List.range 1536).map
    (fun i : ℕ => ops.sin ((seed : R) * ((i : R) + 1)) * (1 / 2) + 1 / 2)

/-- Embedding of `AIService.generateEmbedding`.  The `fetch` branch taken
when an API key is configured (including its internal catch-and-fall-back)
is abstracted as the oracle `remote`; with the empty API key the source
returns the mock embedding and the token estimate `Math.ceil(text.length / 4)`. -/
def generateEmbedding (ops : NumOps R) (apiKey : List Char)
    (remote : List Char → EmbeddingResult R) (text : List Char) :
    EmbeddingResult R :=
  if apiKey = [] then
    ⟨generateMockEmbedding ops text, Nat.ceil ((text.length : ℚ) / 4)⟩
  else
    remote text

/-- Embedding of `AIService.cosineSimilarity`: `0` on length mismatch,
otherwise `dot(a,b) / (sqrt(normA) * sqrt(normB))`. -/
def cosineSimilarity (ops : NumOps R) (a b : List R) : R :=
  if a.length ≠ b.length then 0
  else
    (List.zipWith (· * ·) a b).sum /
      (ops.sqrt ((a.map fun x => x * x).sum) * ops.sqrt ((b.map fun x => x * x).sum))

/-- Embedding of the chunk metadata record. -/
structure ChunkMetadata where
  title : List Char
  fileType : List Char
  chunkIndex : Nat
  totalChunks : Nat
  deriving DecidableEq

/-- Embedding of `DocumentChunk`. -/
structure DocumentChunk (R : Type) where
  id : List Char
  documentId : List Char
  content : List Char
  embedding : List R
  metadata : ChunkMetadata
  deriving DecidableEq

/-- The vector store: `Map<string, DocumentChunk>` as an insertion-ordered
association list (JavaScript maps iterate in insertion order). -/
abbrev VectorStore (R : Type) : Type :=
  List (List Char × DocumentChunk R)

/-- `Map.set`: replace in place if the key exists, else append. -/
def mapSet (k : List Char) (v : β) : List (List Char × β) → List (List Char × β)
  | [] => [(k, v)]
  | (k', v') :: rest =>
    if k' = k then (k', v) :: rest else (k', v') :: mapSet k v rest

/-- `Map.delete`: remove the entry with the given key.  (JavaScript maps
hold at most one entry per key; on the association lists that represent
them this is removal of every entry carrying the key.) -/
def mapDelete (k : List Char) (m : List (List Char × β)) : List (List Char × β) :=
  m.filter (fun e => e.1 ≠ k)

/-- `Map.get`: the value stored at the key, if any. -/
def mapLookup (k : List Char) (m : List (List Char × β)) : Option β :=
  (m.find? (fun e => e.1 = k)).map (·.2)

/-- Embedding of `DocumentSource`.  The `lastUpdated: new Date()` field is
omitted (wall-clock time). -/
structure DocumentSource (R : Type) where
  id : List Char
  title : List Char
  content : List Char
  relevanceScore : R
  deriving DecidableEq

/-- Embedding of `AIService.removeDocument`: collect the keys of every
chunk whose `documentId` matches, then delete each collected key. -/
def removeDocument (documentId : List Char) (store : VectorStore R) :
    VectorStore R :=
  let keysToDelete := (store.filter (fun e => e.2.documentId = documentId)).map (·.1)
  keysToDelete.foldl (fun st k => mapDelete k st) store

/-- The scored pair list built by the `vectorStore.forEach` loop of
`AIService.searchDocuments`, in store iteration order. -/
def scoredResults (ops : NumOps R) (queryEmbedding : List R)
    (store : VectorStore R) : List (DocumentChunk R × R) :=
  store.map (fun e => (e.2, cosineSimilarity ops queryEmbedding e.2.embedding))

/-- Stable insertion step of the descending sort
`results.sort((a, b) => b.score - a.score)`: the inserted element goes
before the first strictly smaller score, after ties. -/
def insertDesc (p : DocumentChunk R × R) :
    List (DocumentChunk R × R) → List (DocumentChunk R × R)
  | [] => [p]
  | q :: qs => if p.2 < q.2 then q :: insertDesc p qs else p :: q :: qs

/-- Stable sort by score descending (JavaScript `Array.prototype.sort` is
stable, and a stable sort under a total preorder is unique). -/
def sortDesc : List (DocumentChunk R × R) → List (DocumentChunk R × R)
  | [] => []
  | p :: ps => insertDesc p (sortDesc ps)

/-- One step of the per-document aggregation over `documentMap`: the first
chunk of a document creates its `DocumentSource`; later chunks append their
text after a blank line and keep the maximum score. -/
def updateSource (c : DocumentChunk R) (score : R) :
    List (DocumentSource R) → List (DocumentSource R)
  | [] => [⟨c.documentId, c.metadata.title, c.content, score⟩]
  | s :: rest =>
    if s.id = c.documentId then
      { s with content := s.content ++ '\n' :: '\n' :: c.content,
               relevanceScore := max s.relevanceScore score } :: rest
    else
      s :: updateSource c score rest

/-- The `documentMap` grouping loop of `AIService.searchDocuments`,
returning `Array.from(documentMap.values())` (insertion order). -/
def groupTop (pairs : List (DocumentChunk R × R)) : List (DocumentSource R) :=
  pairs.foldl (fun acc p => updateSource p.1 p.2 acc) []

/-- Embedding of `AIService.searchDocuments(query, topK)`: embed the query,
score every stored chunk, sort by score descending (stably), take the
first `topK`, and aggregate per document. -/
def searchDocuments (ops : NumOps R) (apiKey : List Char)
    (remote : List Char → EmbeddingResult R) (store : VectorStore R)
    (query : List Char) (topK : Nat) : List (DocumentSource R) :=
  let queryEmbedding := (generateEmbedding ops apiKey remote query).embedding
  groupTop ((sortDesc (scoredResults ops queryEmbedding store)).take topK)

/-- Embedding of `AIService.indexDocument`: split the content into chunks
(`chunkSize = 500`, default overlap 50), embed each chunk, and `set` it
under the key `` `${id}-chunk-${i}` ``. -/
def indexDocument (ops : NumOps R) (apiKey : List Char)
    (remote : List Char → EmbeddingResult R)
    (docId docTitle docContent docFileType : List Char)
    (store : VectorStore R) : VectorStore R :=
  let chunks := splitIntoChunks 500 50 docContent
  (chunks.enum).foldl
    (fun st ic =>
      let chunkId := docId ++ "-chunk-".toList ++ (Nat.repr ic.1).toList
      mapSet chunkId
        ⟨chunkId, docId, ic.2,
          (generateEmbedding ops apiKey remote ic.2).embedding,
          ⟨docTitle, docFileType, ic.1, chunks.length⟩⟩ st)
    store

/-! ## Document service: lifecycle, upload, update, delete -/

/-- Embedding of the document `status` union type. -/
inductive DocStatus where
  | pending
  | processing
  | indexed
  | error
  deriving DecidableEq

/-- Embedding of the `Document` record.  The two `Date` fields
(`uploadedAt`, `lastUpdated`) are omitted (wall-clock time); `errorMsg`
models the optional `error` field. -/
structure Document where
  id : List Char
  title : List Char
  content : List Char
  fileType : List Char
  fileSize : Nat
  status : DocStatus
  errorMsg : Option (List Char)
  chunkCount : Option Nat
  deriving DecidableEq

/-- The state owned by `DocumentService` together with the `AIService`
vector store it drives: the `documents` map and the vector store.
(`localStorage` persistence and the observer callback set are omitted;
no claim refers to them.) -/
structure ServiceState (R : Type) where
  documents : List (List Char × Document)
  vectorStore : VectorStore R
  deriving DecidableEq

def emptyState (R : Type) : ServiceState R :=
  ⟨[], []⟩

/-- The data `uploadFile` reads off the browser `File` object. -/
structure FileInfo where
  name : List Char
  size : Nat
  fileType : List Char
  deriving DecidableEq

/-- Embedding of `DocumentService.uploadFile`.  `newId` stands for the
generated `crypto.randomUUID()`; `extract` is the `extractContent`
collaborator (which may reject); `indexer` abstracts
`aiService.indexDocument` (an `await` that may reject).  The `try/catch`
of the source becomes the `Except` branches: on failure the document is
stored with status `error` and the failure message, and the error is
re-thrown to the caller (`Except.error`). -/
def uploadFile (newId : List Char) (file : FileInfo)
    (extract : FileInfo → Except (List Char) (List Char))
    (indexer : List Char → List Char → List Char → List Char →
      VectorStore R → Except (List Char) (VectorStore R))
    (st : ServiceState R) : Except (List Char) Document × ServiceState R :=
  let doc0 : Document :=
    ⟨newId, file.name, [], file.fileType, file.size, .pending, none, none⟩
  let st1 : ServiceState R := { st with documents := mapSet newId doc0 st.documents }
  let doc1 := { doc0 with status := DocStatus.processing }
  let st2 : ServiceState R := { st1 with documents := mapSet newId doc1 st1.documents }
  match extract file with
  | .error e =>
    let doc2 := { doc1 with status := DocStatus.error, errorMsg := some e }
    (.error e, { st2 with documents := mapSet newId doc2 st2.documents })
  | .ok content =>
    let doc2 := { doc1 with content := content }
    match indexer newId file.name content file.fileType st2.vectorStore with
    | .error e =>
      let doc3 := { doc2 with status := DocStatus.error, errorMsg := some e }
      (.error e, { st2 with documents := mapSet newId doc3 st2.documents })
    | .ok vs =>
      let doc3 := { doc2 with status := DocStatus.indexed }
      (.ok doc3, ⟨mapSet newId doc3 st2.documents, vs⟩)

/-- Embedding of `DocumentService.updateDocument`: missing ids throw
`'Document not found'` before any mutation; otherwise the content is
replaced, the status moves to `processing`, the old chunks are removed and
the document is re-indexed, ending in `indexed` or `error`. -/
def updateDocument (id content : List Char)
    (indexer : List Char → List Char → List Char → List Char →
      VectorStore R → Except (List Char) (VectorStore R))
    (st : ServiceState R) : Except (List Char) Document × ServiceState R :=
  match mapLookup id st.documents with
  | none => (.error "Document not found".toList, st)
  | some doc =>
    let doc1 := { doc with content := content, status := DocStatus.processing }
    let st1 : ServiceState R := { st with documents := mapSet id doc1 st.documents }
    let vs1 := removeDocument id st1.vectorStore
    match indexer id doc.title content doc.fileType vs1 with
    | .error e =>
      let doc2 := { doc1 with status := DocStatus.error, errorMsg := some e }
      (.error e, ⟨mapSet id doc2 st1.documents, vs1⟩)
    | .ok vs =>
      let doc2 := { doc1 with status := DocStatus.indexed }
      (.ok doc2, ⟨mapSet id doc2 st1.documents, vs⟩)

/-- Embedding of `DocumentService.deleteDocument`: sweep the vector store
for the id, then drop the document.  The source performs no existence
check and never throws. -/
def deleteDocument (id : List Char) (st : ServiceState R) : ServiceState R :=
  ⟨mapDelete id st.documents, removeDocument id st.vectorStore⟩

/-- Embedding of `DocumentService.getAllDocuments`.  The source sorts by
the `lastUpdated` timestamp (descending); the timestamp is omitted from
the model, so the map's value list stands in — the claims only use the
empty case, where the sort is immaterial. -/
def getAllDocuments (st : ServiceState R) : List Document :=
  st.documents.map (·.2)

/-- Embedding of `DocumentService.getDocument`. -/
def getDocument (id : List Char) (st : ServiceState R) : Option Document :=
  mapLookup id st.documents

/-! ## Specification-side definitions

These definitions follow the words of the specification / claims, to be
compared with the source-derived definitions above. -/

/-- Join a list of texts with a separator between consecutive elements. -/
def joinSep (sep : List Char) : List (List Char) → List Char
  | [] => []
  | [x] => x
  | x :: xs => x ++ sep ++ joinSep sep xs

/-- The maximum of a score and a list of further scores ("the maximum of
the scores observed so far"). -/
def listMax (x : R) (xs : List R) : R :=
  xs.foldl max x

/-- Per-document aggregation as claim C4 words it: the first occurrence of
a document-id creates the record with that chunk's text and score; the
remaining chunks of the same document append their texts joined with a
blank line and contribute to the maximum score; the output follows
first-occurrence order. -/
def specAggregateC4 : List (DocumentChunk R × R) → List (DocumentSource R)
  | [] => []
  | (c, sc) :: rest =>
    let same := rest.filter (fun p => p.1.documentId = c.documentId)
    ⟨c.documentId, c.metadata.title,
      joinSep ['\n', '\n'] (c.content :: same.map (fun p => p.1.content)),
      listMax sc (same.map (·.2))⟩ ::
      specAggregateC4 (rest.filter (fun p => ¬p.1.documentId = c.documentId))
termination_by pairs => pairs.length
decreasing_by
  exact Nat.lt_succ_of_le (List.length_filter_le _ _)

/-- The chunk-closing step as claim C6 words it: identical to the source's
step except that the seed of the next buffer retains exactly
`⌊overlapHint / 10⌋` trailing words (minimum 0) of the closed buffer. -/
def specC6Step (chunkSize overlap : Nat)
    (st : List (List Char) × List Char) (s : List Char) :
    List (List Char) × List Char :=
  let closed :=
    if st.2.length + s.length > chunkSize ∧ st.2 ≠ [] then
      let words := splitSpace st.2
      (st.1 ++ [jsTrim st.2],
        joinSpace (words.drop (words.length - overlap / 10)) ++ [' '])
    else
      st
  (closed.1, closed.2 ++ s ++ ['.', ' '])

/-- The whole chunker under claim C6's reading of the overlap seeding. -/
def specC6Chunk (chunkSize overlap : Nat) (text : List Char) :
    List (List Char) :=
  let p := (goodSentences text).foldl (specC6Step chunkSize overlap) ([], [])
  let cl := if (jsTrim p.2).isEmpty then p.1 else p.1 ++ [jsTrim p.2]
  if cl.isEmpty then [text] else cl

/-- The amended C6 step: JavaScript's `slice(-overlap / 10)` truncates the
negative fractional index toward zero, so when `⌊overlap / 10⌋ = 0` the
whole closed buffer is retained; otherwise the last
`min ⌊overlap / 10⌋ (word count)` words are. -/
def specC6AmendedStep (chunkSize overlap : Nat)
    (st : List (List Char) × List Char) (s : List Char) :
    List (List Char) × List Char :=
  let closed :=
    if st.2.length + s.length > chunkSize ∧ st.2 ≠ [] then
      let words := splitSpace st.2
      let seed :=
        if overlap / 10 = 0 then words
        else words.drop (words.length - overlap / 10)
      (st.1 ++ [jsTrim st.2], joinSpace seed ++ [' '])
    else
      st
  (closed.1, closed.2 ++ s ++ ['.', ' '])

/-- The whole chunker under the amended overlap seeding. -/
def specC6AmendedChunk (chunkSize overlap : Nat) (text : List Char) :
    List (List Char) :=
  let p := (goodSentences text).foldl (specC6AmendedStep chunkSize overlap) ([], [])
  let cl := if (jsTrim p.2).isEmpty then p.1 else p.1 ++ [jsTrim p.2]
  if cl.isEmpty then [text] else cl

/-- Deletion as claim C9 words it: an id that names no existing document
reports a typed "not found" failure; an existing id is deleted as the
source does. -/
def specC9Delete (id : List Char) (st : ServiceState R) :
    Except (List Char) (ServiceState R) :=
  if (mapLookup id st.documents).isSome then .ok (deleteDocument id st)
  else .error "not found".toList

/-! ## Theorems -/

/-- With the empty API key, the embedding returned is the mock embedding. -/
theorem generateEmbedding_empty_key (ops : NumOps R)
    (remote : List Char → EmbeddingResult R) (t : List Char) :
    (generateEmbedding ops [] remote t).embedding = generateMockEmbedding ops t := by
  unfold generateEmbedding
  rw [if_pos rfl]

/-- C5: with no API key configured, `generateEmbedding` returns the
deterministic fallback: a vector of exactly 1536 components whose
component `i` is `sin(seed * (i + 1)) * 0.5 + 0.5` for `seed` the sum of
the character codes of the text, every component lies in `[0, 1]`, and the
token count is `⌈text.length / 4⌉`.  (Determinism — the same text always
yields the identical vector — is immediate since the model is a pure
function of the text.) -/
theorem generateEmbedding_no_key_fallback
    (remote : List Char → EmbeddingResult ℝ) (text : List Char) :
    (generateEmbedding realOps [] remote text).embedding.length = 1536
    ∧ (∀ i, i < 1536 →
        (generateEmbedding realOps [] remote text).embedding.getD i 0 =
          Real.sin ((charSum text : ℝ) * ((i : ℝ) + 1)) * (1 / 2) + 1 / 2)
    ∧ (∀ x ∈ (generateEmbedding realOps [] remote text).embedding,
        x ∈ Set.Icc (0 : ℝ) 1)
    ∧ (generateEmbedding realOps [] remote text).tokenCount =
        Nat.ceil ((text.length : ℚ) / 4) := by
  have htok : (generateEmbedding realOps [] remote text).tokenCount =
      Nat.ceil ((text.length : ℚ) / 4) := by
    unfold generateEmbedding
    rw [if_pos rfl]
  rw [generateEmbedding_empty_key]
  refine ⟨?_, ?_, ?_, htok⟩
  · simp only [generateMockEmbedding, List.length_map, List.length_range]
  · intro i hi
    unfold generateMockEmbedding
    rw [List.getD_eq_getElem?_getD, List.getElem?_map, List.getElem?_range hi]
    simp [realOps]
  · intro x hx
    unfold generateMockEmbedding at hx
    simp only [List.mem_map, List.mem_range] at hx
    obtain ⟨i, -, rfl⟩ := hx
    have h1 := Real.neg_one_le_sin ((charSum text : ℝ) * ((i : ℝ) + 1))
    have h2 := Real.sin_le_one ((charSum text : ℝ) * ((i : ℝ) + 1))
    constructor
    · simp only [realOps]
      nlinarith
    · simp only [realOps]
      nlinarith

theorem generateEmbedding_no_key_fallback_witness :
    (generateEmbedding realOps [] (fun _ => ⟨[], 0⟩) ['a']).embedding.getD 0 0 =
      Real.sin ((charSum ['a'] : ℝ) * ((0 : ℝ) + 1)) * (1 / 2) + 1 / 2
    ∧ (generateEmbedding realOps [] (fun _ => ⟨[], 0⟩) ['a']).tokenCount =
      Nat.ceil (((['a'] : List Char).length : ℚ) / 4) := by
  have h := generateEmbedding_no_key_fallback (fun _ => ⟨[], 0⟩) ['a']
  exact ⟨by simpa using h.2.1 0 (by norm_num), h.2.2.2⟩

/-- C10: the fallback embedding depends on the text only through the sum
of its character codes: texts with equal character-code sums get
component-wise identical vectors, and with no credential configured the
retriever treats such query texts identically for every store, oracle and
`topK`. -/
theorem mock_embedding_seed_collision (t1 t2 : List Char)
    (h : charSum t1 = charSum t2) :
    generateMockEmbedding realOps t1 = generateMockEmbedding realOps t2
    ∧ ∀ (remote : List Char → EmbeddingResult ℝ) (store : VectorStore ℝ)
        (topK : Nat),
        searchDocuments realOps [] remote store t1 topK =
          searchDocuments realOps [] remote store t2 topK := by
  have hm : generateMockEmbedding realOps t1 = generateMockEmbedding realOps t2 := by
    unfold generateMockEmbedding
    rw [h]
  refine ⟨hm, fun remote store topK => ?_⟩
  unfold searchDocuments
  rw [generateEmbedding_empty_key, generateEmbedding_empty_key, hm]

theorem sumSq_nonneg (a : List ℝ) : 0 ≤ (a.map fun x => x * x).sum := by
  refine List.sum_nonneg ?_
  intro x hx
  obtain ⟨y, -, rfl⟩ := List.mem_map.mp hx
  exact mul_self_nonneg y

theorem sumSq_pos (a : List ℝ) (ha : ∃ x ∈ a, x ≠ 0) :
    0 < (a.map fun x => x * x).sum := by
  obtain ⟨x, hx, hne⟩ := ha
  have hmem : x * x ∈ a.map fun x => x * x := List.mem_map.mpr ⟨x, hx, rfl⟩
  have hle : x * x ≤ (a.map fun x => x * x).sum := by
    refine List.single_le_sum ?_ _ hmem
    intro y hy
    obtain ⟨z, -, rfl⟩ := List.mem_map.mp hy
    exact mul_self_nonneg z
  exact lt_of_lt_of_le (mul_self_pos.mpr hne) hle

theorem list_cauchy_schwarz (a b : List ℝ) :
    ((List.zipWith (· * ·) a b).sum) ^ 2 ≤
      (a.map fun x => x * x).sum * (b.map fun x => x * x).sum := by
  induction a generalizing b with
  | nil => simp
  | cons x a ih =>
    cases b with
    | nil => simp
    | cons y b =>
      simp only [List.zipWith_cons_cons, List.sum_cons, List.map_cons]
      have hA := sumSq_nonneg a
      have hB := sumSq_nonneg b
      have hcs := ih b
      set d := (List.zipWith (· * ·) a b).sum with hd
      set A := (a.map fun x => x * x).sum with hA2
      set B := (b.map fun x => x * x).sum with hB2
      rcases eq_or_lt_of_le hA with hA0 | hApos
      · have hd0 : d = 0 := by nlinarith [sq_nonneg d]
        rw [hd0, ← hA0]
        nlinarith [sq_nonneg (x * y), mul_nonneg (mul_self_nonneg x) hB]
      · nlinarith [sq_nonneg (x * d - A * y),
          mul_nonneg (mul_self_nonneg x) (sub_nonneg.mpr hcs),
          mul_nonneg hA (sub_nonneg.mpr hcs)]

theorem zipWith_mul_self (a : List ℝ) :
    List.zipWith (· * ·) a a = a.map fun x => x * x := by
  induction a with
  | nil => rfl
  | cons x t ih => simp [ih]

/-- C3: for two non-zero vectors of equal length the computed cosine
similarity `dot(a,b) / (‖a‖ × ‖b‖)` lies in `[-1, 1]`; the similarity of a
non-zero vector with itself equals 1 (hence is approximately 1); and for
vectors of differing lengths the function returns exactly 0. -/
theorem cosineSimilarity_bounds :
    (∀ a b : List ℝ, a.length = b.length → (∃ x ∈ a, x ≠ 0) → (∃ x ∈ b, x ≠ 0) →
      cosineSimilarity realOps a b ∈ Set.Icc (-1 : ℝ) 1)
    ∧ (∀ a : List ℝ, (∃ x ∈ a, x ≠ 0) → cosineSimilarity realOps a a = 1)
    ∧ (∀ a b : List ℝ, a.length ≠ b.length → cosineSimilarity realOps a b = 0) := by
  have hmain : ∀ a b : List ℝ, a.length = b.length → (∃ x ∈ a, x ≠ 0) →
      (∃ x ∈ b, x ≠ 0) → cosineSimilarity realOps a b ∈ Set.Icc (-1 : ℝ) 1 := by
    intro a b hlen ha hb
    have hA := sumSq_pos a ha
    have hB := sumSq_pos b hb
    have hsA : (0 : ℝ) < Real.sqrt ((a.map fun x => x * x).sum) :=
      Real.sqrt_pos.mpr hA
    have hsB : (0 : ℝ) < Real.sqrt ((b.map fun x => x * x).sum) :=
      Real.sqrt_pos.mpr hB
    have hcos : cosineSimilarity realOps a b =
        (List.zipWith (· * ·) a b).sum /
          (Real.sqrt ((a.map fun x => x * x).sum) *
            Real.sqrt ((b.map fun x => x * x).sum)) := by
      unfold cosineSimilarity
      rw [if_neg (not_not_intro hlen)]
      simp only [realOps]
    rw [hcos]
    have habs : |(List.zipWith (· * ·) a b).sum| ≤
        Real.sqrt ((a.map fun x => x * x).sum) *
          Real.sqrt ((b.map fun x => x * x).sum) := by
      have h1 : |(List.zipWith (· * ·) a b).sum| =
          Real.sqrt (((List.zipWith (· * ·) a b).sum) ^ 2) :=
        (Real.sqrt_sq_eq_abs _).symm
      rw [h1, ← Real.sqrt_mul hA.le]
      exact Real.sqrt_le_sqrt (list_cauchy_schwarz a b)
    have hden : (0 : ℝ) < Real.sqrt ((a.map fun x => x * x).sum) *
        Real.sqrt ((b.map fun x => x * x).sum) := mul_pos hsA hsB
    rw [Set.mem_Icc, ← abs_le, abs_div, abs_of_pos hden]
    exact (div_le_one hden).mpr habs
  refine ⟨hmain, ?_, ?_⟩
  · intro a ha
    have hA := sumSq_pos a ha
    unfold cosineSimilarity
    rw [if_neg (not_not_intro rfl), zipWith_mul_self,
      show realOps.sqrt = Real.sqrt from rfl,
      Real.mul_self_sqrt hA.le]
    exact div_self hA.ne'
  · intro a b hlen
    unfold cosineSimilarity
    rw [if_pos hlen]

theorem cosineSimilarity_bounds_witness :
    cosineSimilarity realOps [(1 : ℝ)] [(1 : ℝ)] ∈ Set.Icc (-1 : ℝ) 1
    ∧ cosineSimilarity realOps [(2 : ℝ)] [(2 : ℝ)] = 1
    ∧ cosineSimilarity realOps [(1 : ℝ)] ([] : List ℝ) = 0 :=
  ⟨cosineSimilarity_bounds.1 [1] [1] rfl ⟨1, by simp⟩ ⟨1, by simp⟩,
    cosineSimilarity_bounds.2.1 [2] ⟨2, by simp⟩,
    cosineSimilarity_bounds.2.2 [1] [] (by simp)⟩

theorem mock_embedding_seed_collision_witness :
    generateMockEmbedding realOps ['a', 'b'] =
      generateMockEmbedding realOps ['b', 'a'] :=
  (mock_embedding_seed_collision ['a', 'b'] ['b', 'a'] (by decide)).1

/-- C6 (counterexample): with `overlapHint = 0` the claim's seeding —
retain exactly `⌊0 / 10⌋ = 0` trailing words — disagrees with the source:
JavaScript's `slice(-0/10) = slice(0)` retains the whole closed buffer. -/
theorem chunk_overlap_claim_counterexample :
    specC6Chunk 2 0 "aa. bb.".toList ≠ splitIntoChunks 2 0 "aa. bb.".toList := by
  decide

/-- C6 (amended): a chunk is closed exactly when appending the next
sentence would make the buffer exceed `targetSize` characters and the
buffer is non-empty; the closed chunk is trimmed and pushed; the next
buffer is seeded with the closed buffer's trailing words — the last
`min ⌊overlapHint / 10⌋ (word count)` words when `⌊overlapHint / 10⌋ ≥ 1`,
and the entire word sequence of the closed buffer when
`⌊overlapHint / 10⌋ = 0`, because JavaScript `slice` truncates `-overlap/10`
toward zero, making `slice(-0)` equal to `slice(0)`. -/
theorem chunk_overlap_amended (chunkSize overlap : Nat) (text : List Char) :
    splitIntoChunks chunkSize overlap text =
      specC6AmendedChunk chunkSize overlap text := by
  have hstep : chunkStep chunkSize overlap = specC6AmendedStep chunkSize overlap := by
    funext st s
    unfold chunkStep specC6AmendedStep jsSliceFromEnd
    rfl
  unfold splitIntoChunks specC6AmendedChunk chunkLoopChunks
  rw [hstep]

/-- The chunk-list / buffer invariant maintained by the sentence loop:
already-pushed chunks are non-empty, and the running buffer is either
empty or has a non-empty trim. -/
def ChunkInv (st : List (List Char) × List Char) : Prop :=
  (∀ c ∈ st.1, c ≠ []) ∧ (st.2 = [] ∨ jsTrim st.2 ≠ [])

theorem jsTrim_eq_nil_iff (l : List Char) :
    jsTrim l = [] ↔ ∀ c ∈ l, c.isWhitespace := by
  unfold jsTrim
  rw [List.reverse_eq_nil_iff, List.dropWhile_eq_nil_iff]
  simp only [List.mem_reverse]
  constructor
  · intro h c hc
    have hsplit : l.takeWhile Char.isWhitespace ++ l.dropWhile Char.isWhitespace = l :=
      List.takeWhile_append_dropWhile Char.isWhitespace l
    rw [← hsplit] at hc
    rcases List.mem_append.mp hc with h1 | h2
    · exact List.mem_takeWhile_imp h1
    · exact h c h2
  · intro h c hc
    exact h c ((List.dropWhile_suffix Char.isWhitespace).sublist.subset hc)

theorem jsTrim_append_ne_nil (x s y : List Char) (hs : jsTrim s ≠ []) :
    jsTrim (x ++ s ++ y) ≠ [] := by
  intro hcontra
  apply hs
  rw [jsTrim_eq_nil_iff] at hcontra ⊢
  intro c hc
  exact hcontra c (by simp [hc])

theorem chunkStep_inv (chunkSize overlap : Nat)
    (st : List (List Char) × List Char) (s : List Char)
    (hs : jsTrim s ≠ []) (h : ChunkInv st) :
    ChunkInv (chunkStep chunkSize overlap st s) := by
  unfold ChunkInv
  simp only [chunkStep]
  by_cases hcond : st.2.length + s.length > chunkSize ∧ st.2 ≠ []
  · rw [if_pos hcond]
    dsimp only
    refine ⟨?_, Or.inr (jsTrim_append_ne_nil _ s _ hs)⟩
    intro c hc
    rcases List.mem_append.mp hc with hold | hnew
    · exact h.1 c hold
    · rw [List.mem_singleton.mp hnew]
      rcases h.2 with hnil | htrim
      · exact absurd hnil hcond.2
      · exact htrim
  · rw [if_neg hcond]
    exact ⟨h.1, Or.inr (jsTrim_append_ne_nil st.2 s _ hs)⟩

theorem chunkFold_inv (chunkSize overlap : Nat) (ss : List (List Char))
    (hss : ∀ s ∈ ss, jsTrim s ≠ []) (st : List (List Char) × List Char)
    (h : ChunkInv st) :
    ChunkInv (ss.foldl (chunkStep chunkSize overlap) st) := by
  induction ss generalizing st with
  | nil => exact h
  | cons s ss ih =>
    rw [List.foldl_cons]
    exact ih (fun t ht => hss t (List.mem_cons_of_mem s ht)) _
      (chunkStep_inv chunkSize overlap st s (hss s (List.mem_cons_self s ss)) h)

/-- C7: for every non-empty input text, `splitIntoChunks` returns a
non-empty ordered sequence of non-empty chunk strings, and when the
sentence-accumulation loop produces no chunks the original text is
returned as the single chunk. -/
theorem splitIntoChunks_nonempty (chunkSize overlap : Nat) (text : List Char)
    (h : text ≠ []) :
    splitIntoChunks chunkSize overlap text ≠ []
    ∧ (∀ c ∈ splitIntoChunks chunkSize overlap text, c ≠ [])
    ∧ (chunkLoopChunks chunkSize overlap text = [] →
        splitIntoChunks chunkSize overlap text = [text]) := by
  have hinv : ChunkInv ((goodSentences text).foldl
      (chunkStep chunkSize overlap) ([], [])) := by
    refine chunkFold_inv chunkSize overlap _ ?_ _ ⟨by simp, Or.inl rfl⟩
    intro s hsmem
    have := (List.mem_filter.mp hsmem).2
    simpa [List.isEmpty_iff] using this
  have hloop : ∀ c ∈ chunkLoopChunks chunkSize overlap text, c ≠ [] := by
    unfold chunkLoopChunks
    intro c hc
    by_cases hflush : (jsTrim ((goodSentences text).foldl
        (chunkStep chunkSize overlap) ([], [])).2).isEmpty
    · rw [if_pos hflush] at hc
      exact hinv.1 c hc
    · rw [if_neg hflush] at hc
      rcases List.mem_append.mp hc with hold | hnew
      · exact hinv.1 c hold
      · rw [List.mem_singleton.mp hnew]
        simpa [List.isEmpty_iff] using hflush
  unfold splitIntoChunks
  by_cases hcl : (chunkLoopChunks chunkSize overlap text).isEmpty
  · rw [if_pos hcl]
    refine ⟨by simp, ?_, fun _ => rfl⟩
    intro c hc
    rw [List.mem_singleton.mp hc]
    exact h
  · rw [if_neg hcl]
    refine ⟨by simpa [List.isEmpty_iff] using hcl, hloop, ?_⟩
    intro hnil
    exact absurd hnil (by simpa [List.isEmpty_iff] using hcl)

theorem splitIntoChunks_nonempty_witness :
    splitIntoChunks 10 50 "Hello. World.".toList ≠ [] :=
  (splitIntoChunks_nonempty 10 50 "Hello. World.".toList (by decide)).1

theorem mem_insertDesc (p q : DocumentChunk R × R)
    (l : List (DocumentChunk R × R)) :
    q ∈ insertDesc p l ↔ q = p ∨ q ∈ l := by
  induction l with
  | nil => simp [insertDesc]
  | cons r rs ih =>
    unfold insertDesc
    by_cases hlt : p.2 < r.2
    · rw [if_pos hlt]
      simp only [List.mem_cons, ih]
      tauto
    · rw [if_neg hlt]
      simp only [List.mem_cons]

theorem mem_sortDesc (q : DocumentChunk R × R) (l : List (DocumentChunk R × R)) :
    q ∈ sortDesc l ↔ q ∈ l := by
  induction l with
  | nil => simp [sortDesc]
  | cons r rs ih =>
    unfold sortDesc
    rw [mem_insertDesc, ih, List.mem_cons]

theorem length_updateSource (c : DocumentChunk R) (sc : R)
    (acc : List (DocumentSource R)) :
    (updateSource c sc acc).length ≤ acc.length + 1 := by
  induction acc with
  | nil => simp [updateSource]
  | cons s rest ih =>
    unfold updateSource
    by_cases hid : s.id = c.documentId
    · rw [if_pos hid]
      simp
    · rw [if_neg hid]
      simpa using ih

theorem length_groupTop_aux (pairs : List (DocumentChunk R × R))
    (acc : List (DocumentSource R)) :
    (pairs.foldl (fun a p => updateSource p.1 p.2 a) acc).length ≤
      acc.length + pairs.length := by
  induction pairs generalizing acc with
  | nil => simp
  | cons p rest ih =>
    rw [List.foldl_cons]
    calc (rest.foldl (fun a p => updateSource p.1 p.2 a)
          (updateSource p.1 p.2 acc)).length
        ≤ (updateSource p.1 p.2 acc).length + rest.length := ih _
      _ ≤ (acc.length + 1) + rest.length := by
          have := length_updateSource p.1 p.2 acc
          omega
      _ = acc.length + (p :: rest).length := by simp; omega

theorem idsOf_updateSource (c : DocumentChunk R) (sc : R)
    (acc : List (DocumentSource R)) :
    (updateSource c sc acc).map (·.id) = acc.map (·.id)
    ∨ (updateSource c sc acc).map (·.id) = acc.map (·.id) ++ [c.documentId] := by
  induction acc with
  | nil => right; simp [updateSource]
  | cons s rest ih =>
    unfold updateSource
    by_cases hid : s.id = c.documentId
    · rw [if_pos hid]
      left
      simp
    · rw [if_neg hid]
      rcases ih with h | h
      · left
        simp [h]
      · right
        simp [h]

theorem mem_groupTop_aux (pairs : List (DocumentChunk R × R))
    (acc : List (DocumentSource R)) (d : List Char)
    (hd : d ∈ (pairs.foldl (fun a p => updateSource p.1 p.2 a) acc).map (·.id)) :
    d ∈ acc.map (·.id) ∨ ∃ p ∈ pairs, p.1.documentId = d := by
  induction pairs generalizing acc with
  | nil => exact Or.inl hd
  | cons p rest ih =>
    rw [List.foldl_cons] at hd
    rcases ih _ hd with hacc | ⟨q, hq, hqd⟩
    · rcases idsOf_updateSource p.1 p.2 acc with h | h
      · rw [h] at hacc
        exact Or.inl hacc
      · rw [h] at hacc
        rcases List.mem_append.mp hacc with h1 | h2
        · exact Or.inl h1
        · exact Or.inr ⟨p, List.mem_cons_self p rest, (List.mem_singleton.mp h2).symm⟩
    · exact Or.inr ⟨q, List.mem_cons_of_mem p hq, hqd⟩

theorem mem_groupTop_documentId (pairs : List (DocumentChunk R × R))
    (s : DocumentSource R) (hs : s ∈ groupTop pairs) :
    ∃ p ∈ pairs, p.1.documentId = s.id := by
  have hd : s.id ∈ (groupTop pairs).map (·.id) := List.mem_map.mpr ⟨s, hs, rfl⟩
  rcases mem_groupTop_aux pairs [] s.id hd with h | h
  · simp at h
  · exact h

/-- C1: `searchDocuments` returns at most `topK` `DocumentSource` records,
every returned id is the `documentId` of some chunk currently present in
the store, and on the empty store the result is the empty sequence rather
than an error. -/
theorem searchDocuments_topK_cap (ops : NumOps R) (apiKey : List Char)
    (remote : List Char → EmbeddingResult R) (store : VectorStore R)
    (query : List Char) (topK : Nat) :
    (searchDocuments ops apiKey remote store query topK).length ≤ topK
    ∧ (∀ s ∈ searchDocuments ops apiKey remote store query topK,
        ∃ e ∈ store, e.2.documentId = s.id)
    ∧ searchDocuments ops apiKey remote ([] : VectorStore R) query topK = [] := by
  refine ⟨?_, ?_, ?_⟩
  · unfold searchDocuments groupTop
    calc (((sortDesc (scoredResults ops
            (generateEmbedding ops apiKey remote query).embedding store)).take
              topK).foldl (fun a p => updateSource p.1 p.2 a) []).length
        ≤ 0 + ((sortDesc (scoredResults ops
            (generateEmbedding ops apiKey remote query).embedding store)).take
              topK).length := length_groupTop_aux _ _
      _ ≤ topK := by
          rw [Nat.zero_add, List.length_take]
          exact min_le_left _ _
  · intro s hs
    unfold searchDocuments at hs
    obtain ⟨p, hp, hpd⟩ := mem_groupTop_documentId _ s hs
    have hp2 : p ∈ sortDesc (scoredResults ops
        (generateEmbedding ops apiKey remote query).embedding store) :=
      List.mem_of_mem_take hp
    have hp3 : p ∈ scoredResults ops
        (generateEmbedding ops apiKey remote query).embedding store :=
      (mem_sortDesc _ _).mp hp2
    obtain ⟨e, he, hep⟩ := List.mem_map.mp hp3
    refine ⟨e, he, ?_⟩
    rw [← hpd, ← hep]
  · simp [searchDocuments, scoredResults, sortDesc, groupTop, List.take_nil]

theorem searchDocuments_topK_cap_witness :
    (searchDocuments ratOps [] (fun _ => ⟨[], 0⟩)
        [("k1".toList, ⟨"k1".toList, "d1".toList, [], [], ⟨[], [], 0, 1⟩⟩)]
        [] 5).length ≤ 5
    ∧ searchDocuments ratOps [] (fun _ => ⟨[], 0⟩) ([] : VectorStore ℚ) [] 5 = [] :=
  ⟨(searchDocuments_topK_cap ratOps [] (fun _ => ⟨[], 0⟩)
      [("k1".toList, ⟨"k1".toList, "d1".toList, [], [], ⟨[], [], 0, 1⟩⟩)] [] 5).1,
    (searchDocuments_topK_cap ratOps [] (fun _ => ⟨[], 0⟩)
      [("k1".toList, ⟨"k1".toList, "d1".toList, [], [], ⟨[], [], 0, 1⟩⟩)] [] 5).2.2⟩

omit [LinearOrderedField R] in
theorem mem_foldl_mapDelete (keys : List (List Char)) (store : VectorStore R)
    (e : List Char × DocumentChunk R)
    (he : e ∈ keys.foldl (fun st k => mapDelete k st) store) :
    e ∈ store ∧ e.1 ∉ keys := by
  induction keys generalizing store with
  | nil => exact ⟨he, by simp⟩
  | cons k ks ih =>
    rw [List.foldl_cons] at he
    obtain ⟨hmem, hnot⟩ := ih _ he
    have hmem2 := List.mem_filter.mp hmem
    refine ⟨hmem2.1, ?_⟩
    intro hcontra
    rcases List.mem_cons.mp hcontra with h1 | h2
    · exact (by simpa using hmem2.2 : ¬e.1 = k) h1
    · exact hnot h2

omit [LinearOrderedField R] in
theorem removeDocument_no_chunk (docId : List Char) (store : VectorStore R)
    (e : List Char × DocumentChunk R) (he : e ∈ removeDocument docId store) :
    e ∈ store ∧ e.2.documentId ≠ docId := by
  unfold removeDocument at he
  obtain ⟨hmem, hkeys⟩ := mem_foldl_mapDelete _ _ _ he
  refine ⟨hmem, ?_⟩
  intro hdoc
  exact hkeys (List.mem_map.mpr ⟨e, List.mem_filter.mpr ⟨hmem, by simpa using hdoc⟩, rfl⟩)

/-- C2: after `removeDocument(id)` — also as invoked by
`DocumentService.deleteDocument` — no chunk with that `documentId` remains
in the vector store, and a subsequent `searchDocuments` on the resulting
store returns no `DocumentSource` carrying that id, for every prior store
state. -/
theorem removeDocument_sweeps_chunks (ops : NumOps R) (apiKey : List Char)
    (remote : List Char → EmbeddingResult R) (store : VectorStore R)
    (docId query : List Char) (topK : Nat) (st : ServiceState R) :
    (∀ e ∈ removeDocument docId store, e.2.documentId ≠ docId)
    ∧ (∀ s ∈ searchDocuments ops apiKey remote (removeDocument docId store)
        query topK, s.id ≠ docId)
    ∧ (deleteDocument docId st).vectorStore = removeDocument docId st.vectorStore := by
  refine ⟨?_, ?_, rfl⟩
  · intro e he
    exact (removeDocument_no_chunk docId store e he).2
  · intro s hs
    obtain ⟨-, hmem, -⟩ := searchDocuments_topK_cap ops apiKey remote
      (removeDocument docId store) query topK
    obtain ⟨e, he, hed⟩ := hmem s hs
    intro hcontra
    exact (removeDocument_no_chunk docId store e he).2 (hed.trans hcontra)

theorem removeDocument_sweeps_chunks_witness :
    (deleteDocument "d1".toList (emptyState ℚ)).vectorStore =
      removeDocument "d1".toList (emptyState ℚ).vectorStore :=
  (removeDocument_sweeps_chunks ratOps [] (fun _ => ⟨[], 0⟩) [] "d1".toList []
    5 (emptyState ℚ)).2.2

/-- The update applied to an existing `DocumentSource` when a further
chunk of the same document is aggregated: append the chunk text after a
blank line, keep the maximum score. -/
def mergeStep (t : DocumentSource R) (q : DocumentChunk R × R) :
    DocumentSource R :=
  { t with content := t.content ++ '\n' :: '\n' :: q.1.content,
           relevanceScore := max t.relevanceScore q.2 }

/-- Fold `mergeStep` over a list of same-document chunks. -/
def mergeInto (s : DocumentSource R) (ps : List (DocumentChunk R × R)) :
    DocumentSource R :=
  ps.foldl mergeStep s

theorem updateSource_cons_pos (c : DocumentChunk R) (sc : R)
    (s : DocumentSource R) (rest : List (DocumentSource R))
    (hid : s.id = c.documentId) :
    updateSource c sc (s :: rest) = mergeStep s (c, sc) :: rest := by
  simp only [updateSource, mergeStep]
  rw [if_pos hid]

theorem updateSource_cons_neg (c : DocumentChunk R) (sc : R)
    (s : DocumentSource R) (rest : List (DocumentSource R))
    (hid : ¬s.id = c.documentId) :
    updateSource c sc (s :: rest) = s :: updateSource c sc rest := by
  simp only [updateSource]
  rw [if_neg hid]

theorem mergeStep_id (t : DocumentSource R) (q : DocumentChunk R × R) :
    (mergeStep t q).id = t.id := rfl

/-- Processing the scored pairs with a `DocumentSource` at the head of the
accumulator: the pairs of that document merge into the head, the others
fold into the tail, preserving relative structure. -/
theorem foldl_updateSource_cons (rest : List (DocumentChunk R × R))
    (acc : List (DocumentSource R)) (s : DocumentSource R) :
    rest.foldl (fun a q => updateSource q.1 q.2 a) (s :: acc) =
      mergeInto s (rest.filter fun q => q.1.documentId = s.id) ::
        (rest.filter fun q => ¬q.1.documentId = s.id).foldl
          (fun a q => updateSource q.1 q.2 a) acc := by
  induction rest generalizing acc s with
  | nil => simp [mergeInto]
  | cons p rest ih =>
    by_cases hid : p.1.documentId = s.id
    · rw [List.foldl_cons, updateSource_cons_pos p.1 p.2 s acc hid.symm]
      have hps : (p.1, p.2) = p := rfl
      rw [hps, ih acc (mergeStep s p),
        List.filter_cons_of_pos (by simpa using hid),
        List.filter_cons_of_neg (by simpa using hid)]
      rw [show mergeInto s (p :: List.filter (fun q =>
          decide (q.1.documentId = s.id)) rest) =
        mergeInto (mergeStep s p) (List.filter (fun q =>
          decide (q.1.documentId = s.id)) rest) from rfl]
      rw [show (mergeStep s p).id = s.id from rfl]
    · rw [List.foldl_cons, updateSource_cons_neg p.1 p.2 s acc
        (fun h => hid h.symm)]
      rw [ih (updateSource p.1 p.2 acc) s,
        List.filter_cons_of_neg (by simpa using hid),
        List.filter_cons_of_pos (by simpa using hid),
        List.foldl_cons]

/-- Closed form of `mergeInto`: content is the seed content followed by
each chunk text after a blank line, score is the running maximum. -/
theorem mergeInto_closed_form (ps : List (DocumentChunk R × R))
    (s : DocumentSource R) :
    mergeInto s ps =
      ⟨s.id, s.title,
        s.content ++ (ps.map fun q => '\n' :: '\n' :: q.1.content).flatten,
        (ps.map (·.2)).foldl max s.relevanceScore⟩ := by
  induction ps generalizing s with
  | nil => simp [mergeInto]
  | cons p ps ih =>
    rw [show mergeInto s (p :: ps) = mergeInto (mergeStep s p) ps from rfl, ih]
    unfold mergeStep
    simp [List.append_assoc]

theorem joinSep_blank_closed_form (x : List Char) (xs : List (List Char)) :
    joinSep ['\n', '\n'] (x :: xs) =
      x ++ (xs.map fun t => '\n' :: '\n' :: t).flatten := by
  induction xs generalizing x with
  | nil => simp [joinSep]
  | cons y ys ih =>
    rw [show joinSep ['\n', '\n'] (x :: y :: ys) =
        x ++ ['\n', '\n'] ++ joinSep ['\n', '\n'] (y :: ys) from rfl, ih]
    simp

/-- C4: the grouping loop of `searchDocuments` aggregates the score-sorted
top-K pairs exactly as the specification words it: the first occurrence of
a document-id creates the `DocumentSource` with that chunk's text and
score; each later top-K chunk of the same document appends its text after
a blank line and contributes to the maximum score; the output order is the
first-occurrence order among the top-K pairs, not a re-sort by aggregated
score; and `searchDocuments` is that aggregation of the score-sorted
top-K scored pairs. -/
theorem searchDocuments_aggregation :
    (∀ pairs : List (DocumentChunk R × R), groupTop pairs = specAggregateC4 pairs)
    ∧ ∀ (ops : NumOps R) (apiKey : List Char)
        (remote : List Char → EmbeddingResult R) (store : VectorStore R)
        (query : List Char) (topK : Nat),
        searchDocuments ops apiKey remote store query topK =
          groupTop ((sortDesc (scoredResults ops
            (generateEmbedding ops apiKey remote query).embedding store)).take
              topK) := by
  have key : ∀ (n : Nat) (pairs : List (DocumentChunk R × R)),
      pairs.length = n → groupTop pairs = specAggregateC4 pairs := by
    intro n
    induction n using Nat.strong_induction_on with
    | _ n ih =>
      intro pairs hn
      cases pairs with
      | nil => simp [groupTop, specAggregateC4]
      | cons p rest =>
        obtain ⟨c, sc⟩ := p
        have hmk : groupTop ((c, sc) :: rest) =
            rest.foldl (fun a q => updateSource q.1 q.2 a)
              (⟨c.documentId, c.metadata.title, c.content, sc⟩ :: []) := by
          unfold groupTop
          rw [List.foldl_cons]
          rfl
        rw [hmk, foldl_updateSource_cons rest []
          ⟨c.documentId, c.metadata.title, c.content, sc⟩]
        dsimp only
        have hlt : (rest.filter fun q =>
            ¬q.1.documentId = c.documentId).length < n := by
          have h1 := List.length_filter_le
            (fun q => decide (¬q.1.documentId = c.documentId)) rest
          have h2 : ((c, sc) :: rest).length = n := hn
          simp only [List.length_cons] at h2
          omega
        have hrec := ih _ hlt _ rfl
        unfold groupTop at hrec
        rw [hrec, mergeInto_closed_form]
        dsimp only
        simp only [specAggregateC4]
        rw [joinSep_blank_closed_form, List.map_map]
        rfl
  refine ⟨fun pairs => key pairs.length pairs rfl, ?_⟩
  intro ops apiKey remote store query topK
  rfl

theorem searchDocuments_aggregation_witness :
    groupTop [((⟨"k".toList, "d".toList, "t".toList, [], ⟨[], [], 0, 1⟩⟩ :
        DocumentChunk ℚ), (1 : ℚ))] =
      specAggregateC4 [((⟨"k".toList, "d".toList, "t".toList, [], ⟨[], [], 0, 1⟩⟩ :
        DocumentChunk ℚ), (1 : ℚ))] :=
  (searchDocuments_aggregation (R := ℚ)).1 _

omit [LinearOrderedField R] in
theorem mapLookup_mapSet_self {β : Type} (k : List Char) (v : β)
    (m : List (List Char × β)) : mapLookup k (mapSet k v m) = some v := by
  induction m with
  | nil =>
    unfold mapSet mapLookup
    rw [List.find?_cons_of_pos _ (by simp)]
    rfl
  | cons e rest ih =>
    obtain ⟨k', v'⟩ := e
    unfold mapSet
    by_cases hk : k' = k
    · rw [if_pos hk]
      unfold mapLookup
      rw [List.find?_cons_of_pos _ (by simp [hk])]
      rfl
    · rw [if_neg hk]
      unfold mapLookup at ih ⊢
      rw [List.find?_cons_of_neg _ (by simp [hk])]
      exact ih

/-- C8: whenever content extraction or indexing fails during an upload or
an update, the document ends in status `error` with the failure message
recorded on it and remains in the document set (it is not deleted); the
lifecycle manager itself does not crash — the model returns the failure as
a value (`Except.error`, the re-thrown exception) together with a
well-defined successor state. -/
theorem lifecycle_failure_keeps_document {S : Type} (file : FileInfo)
    (newId msg content : List Char)
    (extract : FileInfo → Except (List Char) (List Char))
    (indexer : List Char → List Char → List Char → List Char →
      VectorStore S → Except (List Char) (VectorStore S))
    (st : ServiceState S) :
    (extract file = Except.error msg →
      (uploadFile newId file extract indexer st).1 = Except.error msg
      ∧ mapLookup newId (uploadFile newId file extract indexer st).2.documents =
          some ⟨newId, file.name, [], file.fileType, file.size,
            DocStatus.error, some msg, none⟩)
    ∧ (∀ c, extract file = Except.ok c →
        indexer newId file.name c file.fileType st.vectorStore =
          Except.error msg →
        (uploadFile newId file extract indexer st).1 = Except.error msg
        ∧ mapLookup newId
            (uploadFile newId file extract indexer st).2.documents =
          some ⟨newId, file.name, c, file.fileType, file.size,
            DocStatus.error, some msg, none⟩)
    ∧ (∀ doc, mapLookup newId st.documents = some doc →
        indexer newId doc.title content doc.fileType
          (removeDocument newId st.vectorStore) = Except.error msg →
        (updateDocument newId content indexer st).1 = Except.error msg
        ∧ mapLookup newId
            (updateDocument newId content indexer st).2.documents =
          some
            { doc with
              content := content,
              status := DocStatus.error,
              errorMsg := some msg }) := by
  refine ⟨?_, ?_, ?_⟩
  · intro hx
    unfold uploadFile
    rw [hx]
    exact ⟨rfl, mapLookup_mapSet_self _ _ _⟩
  · intro c hx hidx
    unfold uploadFile
    rw [hx]
    dsimp only
    rw [hidx]
    exact ⟨rfl, mapLookup_mapSet_self _ _ _⟩
  · intro doc hdoc hidx
    unfold updateDocument
    rw [hdoc]
    dsimp only
    rw [hidx]
    exact ⟨rfl, mapLookup_mapSet_self _ _ _⟩

theorem lifecycle_failure_keeps_document_witness :
    (uploadFile "id1".toList ⟨"f.txt".toList, 3, "txt".toList⟩
        (fun _ => Except.error "boom".toList)
        (fun _ _ _ _ vs => Except.ok vs) (emptyState ℚ)).1 =
      Except.error "boom".toList
    ∧ mapLookup "id1".toList
        (uploadFile "id1".toList ⟨"f.txt".toList, 3, "txt".toList⟩
          (fun _ => Except.error "boom".toList)
          (fun _ _ _ _ vs => Except.ok vs) (emptyState ℚ)).2.documents =
      some ⟨"id1".toList, "f.txt".toList, [], "txt".toList, 3,
        DocStatus.error, some "boom".toList, none⟩ :=
  (lifecycle_failure_keeps_document ⟨"f.txt".toList, 3, "txt".toList⟩
    "id1".toList "boom".toList [] (fun _ => Except.error "boom".toList)
    (fun _ _ _ _ vs => Except.ok vs) (emptyState ℚ)).1 rfl

omit [LinearOrderedField R] in
theorem mapDelete_of_absent {β : Type} (k : List Char)
    (m : List (List Char × β)) (h : mapLookup k m = none) :
    mapDelete k m = m := by
  induction m with
  | nil => rfl
  | cons e rest ih =>
    obtain ⟨k', v'⟩ := e
    by_cases hk : k' = k
    · exfalso
      unfold mapLookup at h
      rw [List.find?_cons_of_pos _ (by simp [hk])] at h
      simp at h
    · have hrest : mapLookup k rest = none := by
        unfold mapLookup at h ⊢
        rwa [List.find?_cons_of_neg _ (by simp [hk])] at h
      unfold mapDelete
      rw [List.filter_cons_of_pos (by simp [hk])]
      rw [show List.filter (fun e => decide (e.1 ≠ k)) rest = rest from ih hrest]

/-- C9 (counterexample): `deleteDocument` does not report a typed
"not found" failure for an unknown identifier — it succeeds as a no-op,
so it differs from the claim's checked deletion at the empty state. -/
theorem delete_not_found_counterexample :
    specC9Delete "x".toList (emptyState ℚ) ≠
      Except.ok (deleteDocument "x".toList (emptyState ℚ)) := by
  unfold specC9Delete
  simp [mapLookup, emptyState]

/-- C9 (amended): `updateDocument` on an absent identifier reports the
typed failure "Document not found" and leaves the state untouched, whereas
`deleteDocument` on an absent identifier succeeds idempotently, leaving
the document set unchanged; reads of absent data yield empty results
(`getDocument` is `none`, the document list of the empty state is empty,
and the retriever returns the empty sequence on the empty store) rather
than an error. -/
theorem not_found_behavior (ops : NumOps R) (apiKey : List Char)
    (remote : List Char → EmbeddingResult R) (id content query : List Char)
    (topK : Nat)
    (indexer : List Char → List Char → List Char → List Char →
      VectorStore R → Except (List Char) (VectorStore R))
    (st : ServiceState R) (h : mapLookup id st.documents = none) :
    (updateDocument id content indexer st).1 =
      Except.error "Document not found".toList
    ∧ (updateDocument id content indexer st).2 = st
    ∧ (deleteDocument id st).documents = st.documents
    ∧ getDocument id st = none
    ∧ getAllDocuments (emptyState R) = []
    ∧ searchDocuments ops apiKey remote ([] : VectorStore R) query topK = [] := by
  refine ⟨?_, ?_, ?_, h, rfl, ?_⟩
  · unfold updateDocument
    rw [h]
  · unfold updateDocument
    rw [h]
  · exact congrArg (fun d => d) (mapDelete_of_absent id st.documents h)
  · simp [searchDocuments, scoredResults, sortDesc, groupTop, List.take_nil]

theorem not_found_behavior_witness :
    (updateDocument "x".toList [] (fun _ _ _ _ vs => Except.ok vs)
        (emptyState ℚ)).1 = Except.error "Document not found".toList
    ∧ (deleteDocument "x".toList (emptyState ℚ)).documents =
        (emptyState ℚ).documents :=
  ⟨(not_found_behavior ratOps [] (fun _ => ⟨[], 0⟩) "x".toList [] [] 5
      (fun _ _ _ _ vs => Except.ok vs) (emptyState ℚ) rfl).1,
    (not_found_behavior ratOps [] (fun _ => ⟨[], 0⟩) "x".toList [] [] 5
      (fun _ _ _ _ vs => Except.ok vs) (emptyState ℚ) rfl).2.2.1⟩

end DocuQuery
